import Mathlib

/-!
Shallow embedding of the `cn-assignment` peer-to-peer membership system.

The embedding covers the two node roles of the repository:
  - `seed.py` (`SeedNode`): a quorum-replicated peer directory.  Each seed
    keeps a `peer_list`, a `register_votes` ledger and a `dead_votes` ledger,
    and applies directory transitions when a vote tally reaches the seed
    quorum `floor(|seed_nodes|/2) + 1`.
  - `peer.py` (`PeerNode`): gossip dissemination with de-duplication,
    power-law neighbor selection, ping-based failure detection and a
    neighborhood suspicion-vote protocol.

Network I/O in the source is modelled by explicit event lists (one event per
inbound frame or timer outcome) and by output logs (one entry per outbound
send or send fan-out).  Transport failures are swallowed by the source, so a
lost frame is simply an event that never occurs.  Python dictionaries with
absent-key defaults are modelled as total functions with the default value;
Python sets are `Finset`s.  Python's in-process `hash` of a gossip payload is
an arbitrary function parameter `hash : String → Int`.
-/

/-- An `(ip, port)` process identity, as used for both peers and seeds. -/
abbrev Endpoint := String × Nat

/-! ## Seed state (`seed.py`, class `SeedNode`) -/

/-- State of one seed process.  Mirrors `SeedNode.__init__`:
`peer_list = set()`, `register_votes = {}`, `dead_votes = {}`,
`seed_nodes = read_seed_nodes()` (the configuration list, passed here as a
parameter since reading the file is I/O). -/
@[ext] structure SeedState where
  ip : String
  port : Nat
  seed_nodes : List Endpoint
  peer_list : Finset Endpoint
  register_votes : Endpoint → Finset Endpoint
  dead_votes : Endpoint → Finset Endpoint

/-- `self.quorum = math.floor(len(self.seed_nodes) / 2) + 1`.  The seed list
is static, so computing it on demand agrees with the value cached at init. -/
def SeedState.quorum (s : SeedState) : Nat :=
  s.seed_nodes.length / 2 + 1

/-- Fresh seed state, as built by `SeedNode.__init__` from a configuration. -/
def initSeed (ip : String) (port : Nat) (seeds : List Endpoint) : SeedState :=
  { ip := ip, port := port, seed_nodes := seeds,
    peer_list := ∅, register_votes := fun _ => ∅, dead_votes := fun _ => ∅ }

/-- Ledger update: `if peer not in votes: votes[peer] = set(); votes[peer].add(voter)`. -/
def addVote (votes : Endpoint → Finset Endpoint) (peer voter : Endpoint) :
    Endpoint → Finset Endpoint :=
  Function.update votes peer (insert voter (votes peer))

/-- `SeedNode.check_register_quorum`: if
`len(register_votes.get(peer, [])) >= quorum and peer not in peer_list`
then `peer_list.add(peer)`. -/
def check_register_quorum (s : SeedState) (peer : Endpoint) : SeedState :=
  if s.quorum ≤ (s.register_votes peer).card ∧ peer ∉ s.peer_list then
    { s with peer_list := insert peer s.peer_list }
  else s

/-- `SeedNode.check_dead_quorum`: if
`len(dead_votes.get(peer, [])) >= quorum and peer in peer_list`
then `peer_list.remove(peer)`. -/
def check_dead_quorum (s : SeedState) (peer : Endpoint) : SeedState :=
  if s.quorum ≤ (s.dead_votes peer).card ∧ peer ∈ s.peer_list then
    { s with peer_list := s.peer_list.erase peer }
  else s

/-- `SeedNode.handle_register_request`: record the seed's own vote, fan the
vote out to the other seeds (pure network I/O, no local state), then
re-check the register tally. -/
def handle_register_request (s : SeedState) (peer : Endpoint) : SeedState :=
  check_register_quorum
    { s with register_votes := addVote s.register_votes peer (s.ip, s.port) } peer

/-- `SeedNode.handle_register_vote`: merge the remote voter into the register
ledger, then re-check the tally (no re-broadcast). -/
def handle_register_vote (s : SeedState) (peer voter : Endpoint) : SeedState :=
  check_register_quorum
    { s with register_votes := addVote s.register_votes peer voter } peer

/-- `SeedNode.handle_dead_report`: record the seed's own dead vote, fan it
out, then re-check the dead tally. -/
def handle_dead_report (s : SeedState) (peer : Endpoint) : SeedState :=
  check_dead_quorum
    { s with dead_votes := addVote s.dead_votes peer (s.ip, s.port) } peer

/-- `SeedNode.handle_dead_vote`: merge the remote voter into the dead ledger,
then re-check the tally. -/
def handle_dead_vote (s : SeedState) (peer voter : Endpoint) : SeedState :=
  check_dead_quorum
    { s with dead_votes := addVote s.dead_votes peer voter } peer

/-- One inbound frame at a seed that can change its state
(`get_peers` is a pure read and is omitted). -/
inductive SeedEvent where
  | registerRequest (peer : Endpoint)
  | registerVote (peer voter : Endpoint)
  | deadReport (peer : Endpoint)
  | deadVote (peer voter : Endpoint)

/-- Dispatch of `SeedNode.handle_client` on the frame `type`. -/
def seedStep (s : SeedState) : SeedEvent → SeedState
  | .registerRequest peer => handle_register_request s peer
  | .registerVote peer voter => handle_register_vote s peer voter
  | .deadReport peer => handle_dead_report s peer
  | .deadVote peer voter => handle_dead_vote s peer voter

/-- A seed execution: the sequence of inbound frames, processed in order. -/
def runSeed (s : SeedState) (es : List SeedEvent) : SeedState :=
  es.foldl seedStep s

/-! ## Seed invariants -/

/-- Directory quorum safety: every directory entry has a register ledger of at
least quorum size. -/
def SeedInv (s : SeedState) : Prop :=
  ∀ p ∈ s.peer_list, s.quorum ≤ (s.register_votes p).card

lemma check_register_quorum_seed_nodes (s : SeedState) (p : Endpoint) :
    (check_register_quorum s p).seed_nodes = s.seed_nodes := by
  unfold check_register_quorum; split <;> rfl

lemma check_register_quorum_register_votes (s : SeedState) (p : Endpoint) :
    (check_register_quorum s p).register_votes = s.register_votes := by
  unfold check_register_quorum; split <;> rfl

lemma check_dead_quorum_seed_nodes (s : SeedState) (p : Endpoint) :
    (check_dead_quorum s p).seed_nodes = s.seed_nodes := by
  unfold check_dead_quorum; split <;> rfl

lemma check_dead_quorum_register_votes (s : SeedState) (p : Endpoint) :
    (check_dead_quorum s p).register_votes = s.register_votes := by
  unfold check_dead_quorum; split <;> rfl

lemma seedStep_seed_nodes (s : SeedState) (e : SeedEvent) :
    (seedStep s e).seed_nodes = s.seed_nodes := by
  cases e <;>
    simp [seedStep, handle_register_request, handle_register_vote,
      handle_dead_report, handle_dead_vote, check_register_quorum_seed_nodes,
      check_dead_quorum_seed_nodes]

lemma seedStep_quorum (s : SeedState) (e : SeedEvent) :
    (seedStep s e).quorum = s.quorum := by
  simp [SeedState.quorum, seedStep_seed_nodes]

lemma addVote_subset (votes : Endpoint → Finset Endpoint) (peer voter p : Endpoint) :
    votes p ⊆ addVote votes peer voter p := by
  unfold addVote
  by_cases h : p = peer
  · subst h; simp [Function.update_same, Finset.subset_insert]
  · simp [Function.update_noteq h]

lemma seedStep_register_votes_subset (s : SeedState) (e : SeedEvent) (p : Endpoint) :
    s.register_votes p ⊆ (seedStep s e).register_votes p := by
  cases e <;>
    simp [seedStep, handle_register_request, handle_register_vote,
      handle_dead_report, handle_dead_vote, check_register_quorum_register_votes,
      check_dead_quorum_register_votes, addVote_subset]

/-- Membership after a register-quorum check: either the endpoint was already
present, or the checked endpoint was inserted with a quorum-sized tally. -/
lemma mem_check_register_quorum (s : SeedState) (q p : Endpoint)
    (hp : p ∈ (check_register_quorum s q).peer_list) :
    p ∈ s.peer_list ∨ (p = q ∧ s.quorum ≤ (s.register_votes q).card) := by
  unfold check_register_quorum at hp
  split at hp
  · rename_i hc
    dsimp only at hp
    rcases Finset.mem_insert.mp hp with h | h
    · exact Or.inr ⟨h, hc.1⟩
    · exact Or.inl h
  · exact Or.inl hp

lemma mem_check_dead_quorum (s : SeedState) (q p : Endpoint)
    (hp : p ∈ (check_dead_quorum s q).peer_list) :
    p ∈ s.peer_list := by
  unfold check_dead_quorum at hp
  split at hp
  · dsimp only at hp
    exact Finset.mem_of_mem_erase hp
  · exact hp

/-- Membership in the directory after a step: either the endpoint was already
present, or the step's register-quorum check inserted it, in which case the
post-state register tally is at least the quorum. -/
lemma seedStep_mem_peer_list (s : SeedState) (e : SeedEvent) (p : Endpoint)
    (hp : p ∈ (seedStep s e).peer_list) :
    p ∈ s.peer_list ∨ (seedStep s e).quorum ≤ ((seedStep s e).register_votes p).card := by
  cases e with
  | registerRequest q =>
      rcases mem_check_register_quorum _ q p hp with h | ⟨rfl, hq⟩
      · exact Or.inl h
      · right
        simpa [seedStep, handle_register_request, SeedState.quorum,
          check_register_quorum_seed_nodes, check_register_quorum_register_votes]
          using hq
  | registerVote q v =>
      rcases mem_check_register_quorum _ q p hp with h | ⟨rfl, hq⟩
      · exact Or.inl h
      · right
        simpa [seedStep, handle_register_vote, SeedState.quorum,
          check_register_quorum_seed_nodes, check_register_quorum_register_votes]
          using hq
  | deadReport q =>
      exact Or.inl (mem_check_dead_quorum
        { s with dead_votes := addVote s.dead_votes q (s.ip, s.port) } q p hp)
  | deadVote q v =>
      exact Or.inl (mem_check_dead_quorum
        { s with dead_votes := addVote s.dead_votes q v } q p hp)

lemma seedStep_inv (s : SeedState) (e : SeedEvent) (h : SeedInv s) :
    SeedInv (seedStep s e) := by
  intro p hp
  rcases seedStep_mem_peer_list s e p hp with hold | hnew
  · calc (seedStep s e).quorum = s.quorum := seedStep_quorum s e
      _ ≤ (s.register_votes p).card := h p hold
      _ ≤ ((seedStep s e).register_votes p).card :=
          Finset.card_le_card (seedStep_register_votes_subset s e p)
  · exact hnew

lemma runSeed_inv (es : List SeedEvent) :
    ∀ s : SeedState, SeedInv s → SeedInv (runSeed s es) := by
  induction es with
  | nil => intro s h; simpa [runSeed] using h
  | cons e es ih =>
      intro s h
      have : runSeed s (e :: es) = runSeed (seedStep s e) es := by
        simp [runSeed, List.foldl]
      rw [this]
      exact ih _ (seedStep_inv s e h)

lemma initSeed_inv (ip : String) (port : Nat) (seeds : List Endpoint) :
    SeedInv (initSeed ip port seeds) := by
  intro p hp
  simp [initSeed] at hp

lemma check_register_quorum_peer_list_subset (s : SeedState) (q : Endpoint) :
    s.peer_list ⊆ (check_register_quorum s q).peer_list := by
  unfold check_register_quorum
  split
  · exact Finset.subset_insert q s.peer_list
  · exact Finset.Subset.refl _

/-- An endpoint removed from the directory by a step was removed by the
dead-quorum check, whose tally was at least the quorum. -/
lemma seedStep_removed (t : SeedState) (e : SeedEvent) (p : Endpoint)
    (hin : p ∈ t.peer_list) (hout : p ∉ (seedStep t e).peer_list) :
    (seedStep t e).quorum ≤ ((seedStep t e).dead_votes p).card := by
  cases e with
  | registerRequest q =>
      exact absurd (check_register_quorum_peer_list_subset
        { t with register_votes := addVote t.register_votes q (t.ip, t.port) } q hin) hout
  | registerVote q v =>
      exact absurd (check_register_quorum_peer_list_subset
        { t with register_votes := addVote t.register_votes q v } q hin) hout
  | deadReport q =>
      simp only [seedStep, handle_dead_report] at hout ⊢
      unfold check_dead_quorum at hout ⊢
      split at hout
      · rename_i hc
        dsimp only at hout
        have hpq : p = q := by
          by_contra hne
          exact hout (Finset.mem_erase.mpr ⟨hne, hin⟩)
        subst hpq
        rw [if_pos hc]
        exact hc.1
      · exact absurd hin hout
  | deadVote q v =>
      simp only [seedStep, handle_dead_vote] at hout ⊢
      unfold check_dead_quorum at hout ⊢
      split at hout
      · rename_i hc
        dsimp only at hout
        have hpq : p = q := by
          by_contra hne
          exact hout (Finset.mem_erase.mpr ⟨hne, hin⟩)
        subst hpq
        rw [if_pos hc]
        exact hc.1
      · exact absurd hin hout

/-- C2: at every reachable state of a seed, every endpoint in the directory
has at least `Q = floor(|seed_nodes|/2)+1` distinct voters in the register
ledger; an endpoint is added to the directory only with a register tally of
at least `Q`, and removed only with a dead tally of at least `Q`. -/
theorem seed_directory_quorum_safety :
    (∀ (ip : String) (port : Nat) (seeds : List Endpoint) (es : List SeedEvent)
        (p : Endpoint), p ∈ (runSeed (initSeed ip port seeds) es).peer_list →
        (runSeed (initSeed ip port seeds) es).quorum ≤
          ((runSeed (initSeed ip port seeds) es).register_votes p).card)
    ∧ (∀ (t : SeedState) (e : SeedEvent) (p : Endpoint), p ∉ t.peer_list →
        p ∈ (seedStep t e).peer_list →
        (seedStep t e).quorum ≤ ((seedStep t e).register_votes p).card)
    ∧ (∀ (t : SeedState) (e : SeedEvent) (p : Endpoint), p ∈ t.peer_list →
        p ∉ (seedStep t e).peer_list →
        (seedStep t e).quorum ≤ ((seedStep t e).dead_votes p).card) := by
  refine ⟨?_, ?_, ?_⟩
  · intro ip port seeds es p hp
    exact runSeed_inv es (initSeed ip port seeds) (initSeed_inv ip port seeds) p hp
  · intro t e p hnot hp
    rcases seedStep_mem_peer_list t e p hp with h | h
    · exact absurd h hnot
    · exact h
  · intro t e p hin hout
    exact seedStep_removed t e p hin hout

/-- Seed state with one directory entry and a quorum-sized dead ledger for
it, used to exercise the removal clause at a concrete input. -/
def wDeadSeed : SeedState :=
  { initSeed "s" 1 [("s", 1)] with
      peer_list := {("q", 7)},
      dead_votes := Function.update (fun _ => (∅ : Finset Endpoint)) ("q", 7) {("t", 2)} }

theorem seed_directory_quorum_safety_witness :
    ((runSeed (initSeed "s" 1 [("s", 1)]) [SeedEvent.registerRequest ("q", 7)]).quorum ≤
      ((runSeed (initSeed "s" 1 [("s", 1)])
          [SeedEvent.registerRequest ("q", 7)]).register_votes ("q", 7)).card)
    ∧ ((seedStep (initSeed "s" 1 [("s", 1)]) (SeedEvent.registerRequest ("q", 7))).quorum ≤
      ((seedStep (initSeed "s" 1 [("s", 1)])
          (SeedEvent.registerRequest ("q", 7))).register_votes ("q", 7)).card)
    ∧ ((seedStep wDeadSeed (SeedEvent.deadReport ("q", 7))).quorum ≤
      ((seedStep wDeadSeed (SeedEvent.deadReport ("q", 7))).dead_votes ("q", 7)).card) :=
  ⟨seed_directory_quorum_safety.1 "s" 1 [("s", 1)]
      [SeedEvent.registerRequest ("q", 7)] ("q", 7) (by decide),
   seed_directory_quorum_safety.2.1 (initSeed "s" 1 [("s", 1)])
      (SeedEvent.registerRequest ("q", 7)) ("q", 7) (by decide) (by decide),
   seed_directory_quorum_safety.2.2 wDeadSeed
      (SeedEvent.deadReport ("q", 7)) ("q", 7) (by decide) (by decide)⟩

/-! ## Stale vote ledgers (ledgers are never cleared on a transition) -/

/-- C10: a register ledger that already holds a quorum of voters re-admits an
absent endpoint on a single further `register` request, with no new votes
from any other seed; symmetrically a stale dead ledger re-removes a present
endpoint on a single further `dead_node` report. -/
theorem stale_ledger_single_message_transition (s : SeedState) (p : Endpoint) :
    (s.quorum ≤ (s.register_votes p).card → p ∉ s.peer_list →
      p ∈ (handle_register_request s p).peer_list)
    ∧ (s.quorum ≤ (s.dead_votes p).card → p ∈ s.peer_list →
      p ∉ (handle_dead_report s p).peer_list) := by
  constructor
  · intro hq hnot
    have hcard : s.quorum ≤ ((addVote s.register_votes p (s.ip, s.port)) p).card :=
      le_trans hq (Finset.card_le_card (addVote_subset s.register_votes p (s.ip, s.port) p))
    unfold handle_register_request check_register_quorum
    rw [if_pos ⟨hcard, hnot⟩]
    exact Finset.mem_insert_self p _
  · intro hq hin
    have hcard : s.quorum ≤ ((addVote s.dead_votes p (s.ip, s.port)) p).card :=
      le_trans hq (Finset.card_le_card (addVote_subset s.dead_votes p (s.ip, s.port) p))
    unfold handle_dead_report check_dead_quorum
    rw [if_pos ⟨hcard, hin⟩]
    exact Finset.not_mem_erase p _

/-- Seed state whose register ledger for `("q",7)` already holds a quorum of
voters while the endpoint is absent from the directory. -/
def wStaleReg : SeedState :=
  { initSeed "s" 1 [("s", 1), ("t", 2), ("u", 3)] with
      register_votes :=
        Function.update (fun _ => (∅ : Finset Endpoint)) ("q", 7) {("t", 2), ("u", 3)} }

/-- Seed state whose dead ledger for `("q",7)` already holds a quorum of
voters while the endpoint is present in the directory. -/
def wStaleDead : SeedState :=
  { initSeed "s" 1 [("s", 1), ("t", 2), ("u", 3)] with
      peer_list := {("q", 7)},
      dead_votes :=
        Function.update (fun _ => (∅ : Finset Endpoint)) ("q", 7) {("t", 2), ("u", 3)} }

theorem stale_ledger_single_message_transition_witness :
    ("q", 7) ∈ (handle_register_request wStaleReg ("q", 7)).peer_list
    ∧ ("q", 7) ∉ (handle_dead_report wStaleDead ("q", 7)).peer_list :=
  ⟨(stale_ledger_single_message_transition wStaleReg ("q", 7)).1 (by decide) (by decide),
   (stale_ledger_single_message_transition wStaleDead ("q", 7)).2 (by decide) (by decide)⟩

/-! ## Idempotence of repeated requests and duplicate votes -/

lemma check_register_quorum_ip (s : SeedState) (p : Endpoint) :
    (check_register_quorum s p).ip = s.ip := by
  unfold check_register_quorum; split <;> rfl

lemma check_register_quorum_port (s : SeedState) (p : Endpoint) :
    (check_register_quorum s p).port = s.port := by
  unfold check_register_quorum; split <;> rfl

lemma check_register_quorum_dead_votes (s : SeedState) (p : Endpoint) :
    (check_register_quorum s p).dead_votes = s.dead_votes := by
  unfold check_register_quorum; split <;> rfl

lemma check_dead_quorum_ip (s : SeedState) (p : Endpoint) :
    (check_dead_quorum s p).ip = s.ip := by
  unfold check_dead_quorum; split <;> rfl

lemma check_dead_quorum_port (s : SeedState) (p : Endpoint) :
    (check_dead_quorum s p).port = s.port := by
  unfold check_dead_quorum; split <;> rfl

lemma check_dead_quorum_dead_votes (s : SeedState) (p : Endpoint) :
    (check_dead_quorum s p).dead_votes = s.dead_votes := by
  unfold check_dead_quorum; split <;> rfl

lemma addVote_idem (f : Endpoint → Finset Endpoint) (p v : Endpoint) :
    addVote (addVote f p v) p v = addVote f p v := by
  funext q
  by_cases h : q = p
  · subst h
    simp [addVote, Function.update_same, Finset.insert_idem]
  · simp [addVote, Function.update_noteq h]

lemma handle_register_vote_peer_list (s : SeedState) (p v : Endpoint) :
    (handle_register_vote s p v).peer_list =
      if s.quorum ≤ ((addVote s.register_votes p v) p).card ∧ p ∉ s.peer_list then
        insert p s.peer_list
      else s.peer_list := by
  unfold handle_register_vote check_register_quorum SeedState.quorum
  dsimp only
  split
  · rfl
  · rfl

lemma handle_register_vote_fields (s : SeedState) (p v : Endpoint) :
    (handle_register_vote s p v).ip = s.ip
    ∧ (handle_register_vote s p v).port = s.port
    ∧ (handle_register_vote s p v).seed_nodes = s.seed_nodes
    ∧ (handle_register_vote s p v).register_votes = addVote s.register_votes p v
    ∧ (handle_register_vote s p v).dead_votes = s.dead_votes := by
  unfold handle_register_vote
  exact ⟨check_register_quorum_ip _ _, check_register_quorum_port _ _,
    check_register_quorum_seed_nodes _ _, check_register_quorum_register_votes _ _,
    check_register_quorum_dead_votes _ _⟩

lemma handle_register_vote_idem (s : SeedState) (p v : Endpoint) :
    handle_register_vote (handle_register_vote s p v) p v = handle_register_vote s p v := by
  obtain ⟨hip, hport, hsn, hrv, hdv⟩ := handle_register_vote_fields s p v
  apply SeedState.ext
  · rw [(handle_register_vote_fields _ p v).1, hip]
  · rw [(handle_register_vote_fields _ p v).2.1, hport]
  · rw [(handle_register_vote_fields _ p v).2.2.1, hsn]
  · have hquo : (handle_register_vote s p v).quorum = s.quorum := by
      unfold SeedState.quorum; rw [hsn]
    rw [handle_register_vote_peer_list (handle_register_vote s p v) p v,
      hrv, addVote_idem, hquo]
    by_cases hc : s.quorum ≤ ((addVote s.register_votes p v) p).card ∧ p ∉ s.peer_list
    · rw [handle_register_vote_peer_list s p v, if_pos hc,
        if_neg (fun h => h.2 (Finset.mem_insert_self p s.peer_list))]
    · rw [handle_register_vote_peer_list s p v, if_neg hc, if_neg hc]
  · rw [(handle_register_vote_fields _ p v).2.2.2.1, hrv, addVote_idem]
  · rw [(handle_register_vote_fields _ p v).2.2.2.2, hdv]

lemma handle_dead_vote_peer_list (s : SeedState) (p v : Endpoint) :
    (handle_dead_vote s p v).peer_list =
      if s.quorum ≤ ((addVote s.dead_votes p v) p).card ∧ p ∈ s.peer_list then
        s.peer_list.erase p
      else s.peer_list := by
  unfold handle_dead_vote check_dead_quorum SeedState.quorum
  dsimp only
  split
  · rfl
  · rfl

lemma handle_dead_vote_fields (s : SeedState) (p v : Endpoint) :
    (handle_dead_vote s p v).ip = s.ip
    ∧ (handle_dead_vote s p v).port = s.port
    ∧ (handle_dead_vote s p v).seed_nodes = s.seed_nodes
    ∧ (handle_dead_vote s p v).register_votes = s.register_votes
    ∧ (handle_dead_vote s p v).dead_votes = addVote s.dead_votes p v := by
  unfold handle_dead_vote
  exact ⟨check_dead_quorum_ip _ _, check_dead_quorum_port _ _,
    check_dead_quorum_seed_nodes _ _, check_dead_quorum_register_votes _ _,
    check_dead_quorum_dead_votes _ _⟩

lemma handle_dead_vote_idem (s : SeedState) (p v : Endpoint) :
    handle_dead_vote (handle_dead_vote s p v) p v = handle_dead_vote s p v := by
  obtain ⟨hip, hport, hsn, hrv, hdv⟩ := handle_dead_vote_fields s p v
  apply SeedState.ext
  · rw [(handle_dead_vote_fields _ p v).1, hip]
  · rw [(handle_dead_vote_fields _ p v).2.1, hport]
  · rw [(handle_dead_vote_fields _ p v).2.2.1, hsn]
  · have hquo : (handle_dead_vote s p v).quorum = s.quorum := by
      unfold SeedState.quorum; rw [hsn]
    rw [handle_dead_vote_peer_list (handle_dead_vote s p v) p v,
      hdv, addVote_idem, hquo]
    by_cases hc : s.quorum ≤ ((addVote s.dead_votes p v) p).card ∧ p ∈ s.peer_list
    · rw [handle_dead_vote_peer_list s p v, if_pos hc,
        if_neg (fun h => Finset.not_mem_erase p s.peer_list h.2)]
    · rw [handle_dead_vote_peer_list s p v, if_neg hc, if_neg hc]
  · rw [(handle_dead_vote_fields _ p v).2.2.2.1, hrv]
  · rw [(handle_dead_vote_fields _ p v).2.2.2.2, hdv, addVote_idem]

lemma handle_register_request_as_vote (s : SeedState) (p : Endpoint) :
    handle_register_request s p = handle_register_vote s p (s.ip, s.port) := rfl

lemma handle_dead_report_as_vote (s : SeedState) (p : Endpoint) :
    handle_dead_report s p = handle_dead_vote s p (s.ip, s.port) := rfl

/-- C6: repeated `register` requests for the same endpoint are idempotent on
seed state (in particular the directory cannot grow beyond one entry for the
endpoint), a `dead_node` report for an endpoint already absent from the
directory leaves the directory unchanged, and duplicate register or dead
votes are absorbed by set semantics. -/
theorem seed_register_dead_idempotent (s : SeedState) (p v : Endpoint) :
    handle_register_request (handle_register_request s p) p = handle_register_request s p
    ∧ (p ∉ s.peer_list → (handle_dead_report s p).peer_list = s.peer_list)
    ∧ handle_register_vote (handle_register_vote s p v) p v = handle_register_vote s p v
    ∧ handle_dead_vote (handle_dead_vote s p v) p v = handle_dead_vote s p v := by
  refine ⟨?_, ?_, handle_register_vote_idem s p v, handle_dead_vote_idem s p v⟩
  · rw [handle_register_request_as_vote s p,
      handle_register_request_as_vote (handle_register_vote s p (s.ip, s.port)) p,
      (handle_register_vote_fields s p (s.ip, s.port)).1,
      (handle_register_vote_fields s p (s.ip, s.port)).2.1]
    exact handle_register_vote_idem s p (s.ip, s.port)
  · intro hnot
    rw [handle_dead_report_as_vote, handle_dead_vote_peer_list]
    rw [if_neg (fun hc => hnot hc.2)]

theorem seed_register_dead_idempotent_witness :
    (handle_dead_report (initSeed "s" 1 [("s", 1)]) ("q", 7)).peer_list =
      (initSeed "s" 1 [("s", 1)]).peer_list :=
  (seed_register_dead_idempotent (initSeed "s" 1 [("s", 1)]) ("q", 7) ("t", 2)).2.1
    (by decide)

/-! ## Peer state (`peer.py`, class `PeerNode`) -/

/-- State of one peer process.  Mirrors `PeerNode.__init__`:
`registered_seeds = set()`, `peers = set()`, `message_list = set()`,
`message_count = 0`, `suspicions = {}` (read with default `0`),
`suspicion_votes = {}` (read with default empty set). -/
@[ext] structure PeerState where
  ip : String
  port : Nat
  registered_seeds : Finset Endpoint
  peers : Finset Endpoint
  message_list : Finset Int
  message_count : Nat
  suspicions : Endpoint → Nat
  suspicion_votes : Endpoint → Finset Endpoint

/-- Fresh peer state, as built by `PeerNode.__init__`. -/
def mkPeer (ip : String) (port : Nat) : PeerState :=
  { ip := ip, port := port, registered_seeds := ∅, peers := ∅,
    message_list := ∅, message_count := 0,
    suspicions := fun _ => 0, suspicion_votes := fun _ => ∅ }

/-- `PeerNode.quorum_neighbors`:
`math.floor(n / 2) + 1 if n > 0 else 1` for `n = len(self.peers)`. -/
def PeerState.quorum_neighbors (s : PeerState) : Nat :=
  if 0 < s.peers.card then s.peers.card / 2 + 1 else 1

/-- One outbound action of a peer.  A `broadcastMsg` entry records one call
of `PeerNode.broadcast_message` (the gossip frame fan-out to the snapshot of
neighbors minus the optional excluded endpoint); `origin` is true for the
call made by the originator loop in `PeerNode.start` and false for the
re-broadcast in `handle_peer`.  A `suspicionBroadcast` entry records one
call of `PeerNode.broadcast_suspicion`; a `deadReport` entry records one
call of `PeerNode.report_dead_node` (one `dead_node` frame to every
registered seed). -/
inductive PeerOutput where
  | logGossip (message : String)
  | broadcastMsg (message : String) (targets : Finset Endpoint) (origin : Bool)
  | pong (target : Endpoint)
  | suspicionBroadcast (suspect : Endpoint) (targets : Finset Endpoint)
  | deadReport (suspect : Endpoint) (seeds : Finset Endpoint)
  | peerInfoSend (target : Endpoint)
  deriving DecidableEq

/-- Target set of `PeerNode.broadcast_message`: every neighbor in the
snapshot, skipping `(ip, port) == exclude` when an exclusion is given
(`if exclude and (ip, port) == exclude: continue`). -/
def broadcast_targets (peers : Finset Endpoint) (exclude : Option Endpoint) :
    Finset Endpoint :=
  match exclude with
  | none => peers
  | some e => peers.erase e

/-- The `"gossip"` branch of `PeerNode.handle_peer`: hash the payload,
drop when the fingerprint was already seen, otherwise record it, log it and
re-broadcast excluding the frame's source address. -/
def handle_gossip (hash : String → Int) (s : PeerState) (msg : String)
    (addr : Endpoint) : PeerState × List PeerOutput :=
  let h := hash msg
  if h ∈ s.message_list then (s, [])
  else
    ({ s with message_list := insert h s.message_list },
     [.logGossip msg, .broadcastMsg msg (broadcast_targets s.peers (some addr)) false])

/-- `PeerNode.report_dead_node`: one `dead_node` frame to every registered
seed (modelled as a single fan-out entry carrying the seed set). -/
def report_dead_node (s : PeerState) (peer : Endpoint) : List PeerOutput :=
  [.deadReport peer s.registered_seeds]

/-- `PeerNode.handle_suspicion_vote`: add the voter to the suspect's accuser
set, then report the suspect dead whenever the tally reaches the neighbor
quorum. -/
def handle_suspicion_vote (s : PeerState) (peer voter : Endpoint) :
    PeerState × List PeerOutput :=
  let votes := insert voter (s.suspicion_votes peer)
  let s' := { s with suspicion_votes := Function.update s.suspicion_votes peer votes }
  if s.quorum_neighbors ≤ votes.card then (s', report_dead_node s' peer)
  else (s', [])

/-- `PeerNode.start_suspicion`: bump the strike counter; when it reaches
exactly 2 the peer broadcasts a `suspicion_vote` for the suspect to every
neighbor (`PeerNode.broadcast_suspicion`; the local vote is not recorded in
the peer's own `suspicion_votes`). -/
def start_suspicion (s : PeerState) (peer : Endpoint) : PeerState × List PeerOutput :=
  let c := s.suspicions peer + 1
  let s' := { s with suspicions := Function.update s.suspicions peer c }
  if c = 2 then (s', [.suspicionBroadcast peer s'.peers])
  else (s', [])

/-- One event at a peer: an inbound frame dispatched by
`PeerNode.handle_peer` (`peer_info`, `gossip`, `ping`, `suspicion_vote`), a
per-neighbor outcome of one `PeerNode.ping_peers` cycle, or one iteration of
the originator loop in `PeerNode.start` with timestamp text `t`. -/
inductive PeerEvent where
  | peerInfo (payload : Endpoint)
  | gossip (message : String) (addr : Endpoint)
  | ping (addr : Endpoint)
  | suspicionVote (suspect voter : Endpoint)
  | pingSuccess (n : Endpoint)
  | pingFailure (n : Endpoint)
  | originate (t : String)

/-- Dispatch of one peer event to the matching source handler. -/
def peerStep (hash : String → Int) (s : PeerState) :
    PeerEvent → PeerState × List PeerOutput
  | .peerInfo payload => ({ s with peers := insert payload s.peers }, [])
  | .gossip msg addr => handle_gossip hash s msg addr
  | .ping addr => (s, [.pong addr])
  | .suspicionVote suspect voter => handle_suspicion_vote s suspect voter
  | .pingSuccess n => ({ s with suspicions := Function.update s.suspicions n 0 }, [])
  | .pingFailure n => start_suspicion s n
  | .originate t =>
      if s.message_count < 10 then
        ({ s with message_count := s.message_count + 1 },
         [.broadcastMsg (t ++ ":" ++ s.ip ++ ":" ++ toString s.message_count)
            (broadcast_targets s.peers none) true])
      else (s, [])

/-- A peer execution: process the events in order, concatenating outputs. -/
def runPeer (hash : String → Int) : PeerState → List PeerEvent →
    PeerState × List PeerOutput
  | s, [] => (s, [])
  | s, e :: es =>
      let r := peerStep hash s e
      let rest := runPeer hash r.1 es
      (rest.1, r.2 ++ rest.2)

/-- `PeerNode.connect_to_peers`: for each selected endpoint, skip it when it
is the peer itself, otherwise send a `peer_info` handshake and add it to the
neighbor set on success (`ok` tells whether the transport exchange
succeeds; a failure is swallowed). -/
def connect_to_peers (ok : Endpoint → Bool) (s : PeerState) :
    List Endpoint → PeerState × List PeerOutput
  | [] => (s, [])
  | q :: rest =>
      if q = (s.ip, s.port) then connect_to_peers ok s rest
      else if ok q then
        let r := connect_to_peers ok { s with peers := insert q s.peers } rest
        (r.1, .peerInfoSend q :: r.2)
      else connect_to_peers ok s rest

/-- `PeerNode.select_peers_power_law` weight table: rank degrees `i + 1`,
power-law weights `d ** -alpha` with `alpha = 2.0` (modelled exactly over
`ℚ`), normalized by their sum. -/
def powerLawProbs (n : Nat) : List ℚ :=
  let degrees : List Nat := (List.range n).map (fun i => i + 1)
  let probs := degrees.map (fun (d : Nat) => (d : ℚ) ^ (-2 : ℤ))
  let total := probs.sum
  probs.map (fun p => p / total)

/-- `PeerNode.select_peers_power_law`: empty candidate list yields no
selection; otherwise sample `k = min(3, n)` indices from the normalized
rank weights (`random.choices`, modelled by the sampling oracle `choices`)
and return the indexed candidates. -/
def select_peers_power_law (choices : Nat → List ℚ → Nat → List Nat)
    (peers : List Endpoint) : List Endpoint :=
  if peers = [] then []
  else
    let probs := powerLawProbs peers.length
    let k := min 3 peers.length
    let idx := choices peers.length probs k
    idx.map (fun i => peers.getD i ("", 0))

/-! ## Output counting helpers -/

/-- Does an output entry broadcast gossip message `m` (origination or
re-broadcast)? -/
def isBroadcastOf (m : String) : PeerOutput → Bool
  | .broadcastMsg msg _ _ => decide (msg = m)
  | _ => false

/-- Does an output entry re-broadcast gossip message `m` from the receive
path of `handle_peer` (as opposed to the originator loop)? -/
def isRebroadcastOf (m : String) : PeerOutput → Bool
  | .broadcastMsg msg _ origin => decide (msg = m) && !origin
  | _ => false

/-- Does an output entry report endpoint `n` dead to the seeds? -/
def isDeadReportFor (n : Endpoint) : PeerOutput → Bool
  | .deadReport suspect _ => decide (suspect = n)
  | _ => false

/-- Number of `broadcast_message` fan-outs of `m` in an output log. -/
def broadcastCount (m : String) (log : List PeerOutput) : Nat :=
  (log.filter (isBroadcastOf m)).length

/-- Number of receive-path `broadcast_message` fan-outs of `m` in a log. -/
def rebroadcastCount (m : String) (log : List PeerOutput) : Nat :=
  (log.filter (isRebroadcastOf m)).length

/-- Number of `dead_node` fan-outs for suspect `n` in an output log. -/
def deadReportCount (n : Endpoint) (log : List PeerOutput) : Nat :=
  (log.filter (isDeadReportFor n)).length

/-! ## Gossip receipt: de-duplication and re-broadcast -/

/-- C5: on receipt of a gossip frame the peer computes the payload
fingerprint; a seen fingerprint is dropped silently (no state change, no
output), otherwise the fingerprint is recorded and the message is logged and
re-broadcast to every current neighbor except the frame's sender. -/
theorem handle_gossip_dedup_and_rebroadcast (hash : String → Int) (s : PeerState)
    (msg : String) (addr : Endpoint) :
    (hash msg ∈ s.message_list → handle_gossip hash s msg addr = (s, []))
    ∧ (hash msg ∉ s.message_list →
        (handle_gossip hash s msg addr).1.message_list =
          insert (hash msg) s.message_list
        ∧ (handle_gossip hash s msg addr).1.peers = s.peers
        ∧ (handle_gossip hash s msg addr).1.suspicions = s.suspicions
        ∧ (handle_gossip hash s msg addr).1.suspicion_votes = s.suspicion_votes
        ∧ (handle_gossip hash s msg addr).1.message_count = s.message_count
        ∧ (handle_gossip hash s msg addr).2 =
            [.logGossip msg, .broadcastMsg msg (s.peers.erase addr) false]) := by
  constructor
  · intro hmem
    unfold handle_gossip
    rw [if_pos hmem]
  · intro hmem
    unfold handle_gossip
    rw [if_neg hmem]
    exact ⟨rfl, rfl, rfl, rfl, rfl, rfl⟩

/-- Peer state with the fingerprint of "x" (length 1) already seen, for the
drop branch of the gossip handler. -/
def wSeenPeer : PeerState :=
  { mkPeer "p" 1 with peers := {("b", 2), ("c", 3)}, message_list := {(1 : Int)} }

theorem handle_gossip_dedup_and_rebroadcast_witness :
    (handle_gossip (fun m => (m.length : Int)) wSeenPeer "x" ("b", 2) = (wSeenPeer, []))
    ∧ ((handle_gossip (fun m => (m.length : Int)) wSeenPeer "xy" ("b", 2)).2 =
        [.logGossip "xy",
         .broadcastMsg "xy" (wSeenPeer.peers.erase ("b", 2)) false]) :=
  ⟨(handle_gossip_dedup_and_rebroadcast (fun m => (m.length : Int)) wSeenPeer
      "x" ("b", 2)).1 (by decide),
   ((handle_gossip_dedup_and_rebroadcast (fun m => (m.length : Int)) wSeenPeer
      "xy" ("b", 2)).2 (by decide)).2.2.2.2.2⟩

/-! ## Suspicion votes are processed unconditionally -/

/-- C9: `handle_suspicion_vote` adds the claimed voter to the suspect's
accuser set with no neighbor, self or strike check, changes nothing else,
and fans out a `dead_node` report to the registered seeds exactly when the
resulting accuser tally reaches the neighbor quorum. -/
theorem handle_suspicion_vote_unconditional (s : PeerState) (suspect voter : Endpoint) :
    (handle_suspicion_vote s suspect voter).1.suspicion_votes =
      Function.update s.suspicion_votes suspect
        (insert voter (s.suspicion_votes suspect))
    ∧ (handle_suspicion_vote s suspect voter).1.peers = s.peers
    ∧ (handle_suspicion_vote s suspect voter).1.suspicions = s.suspicions
    ∧ (handle_suspicion_vote s suspect voter).1.message_list = s.message_list
    ∧ (handle_suspicion_vote s suspect voter).1.registered_seeds = s.registered_seeds
    ∧ (handle_suspicion_vote s suspect voter).2 =
        (if s.quorum_neighbors ≤ (insert voter (s.suspicion_votes suspect)).card
         then [.deadReport suspect s.registered_seeds] else []) := by
  by_cases hc : s.quorum_neighbors ≤ (insert voter (s.suspicion_votes suspect)).card
  · simp [handle_suspicion_vote, report_dead_node, hc]
  · simp [handle_suspicion_vote, report_dead_node, hc]

/-! ## When does a peer report a node dead? -/

/-- C1 (amended): a peer emits a `dead_node` fan-out only while processing a
`suspicion_vote` frame whose insertion brings the suspect's accuser tally to
the neighbor quorum; no other event emits one, and neither the peer's own
strike count nor its own membership among the accusers is consulted. -/
theorem dead_report_only_at_vote_quorum (hash : String → Int) (s : PeerState)
    (e : PeerEvent) (n : Endpoint) (seeds : Finset Endpoint)
    (h : PeerOutput.deadReport n seeds ∈ (peerStep hash s e).2) :
    ∃ v, e = PeerEvent.suspicionVote n v
      ∧ s.quorum_neighbors ≤ (insert v (s.suspicion_votes n)).card
      ∧ seeds = s.registered_seeds := by
  cases e with
  | peerInfo q => simp [peerStep] at h
  | gossip msg addr =>
      by_cases hm : hash msg ∈ s.message_list <;>
        simp [peerStep, handle_gossip, hm] at h
  | ping addr => simp [peerStep] at h
  | suspicionVote suspect voter =>
      by_cases hc : s.quorum_neighbors ≤ (insert voter (s.suspicion_votes suspect)).card
      · simp [peerStep, handle_suspicion_vote, report_dead_node, hc] at h
        obtain ⟨h1, h2⟩ := h
        subst h1
        subst h2
        exact ⟨voter, rfl, hc, rfl⟩
      · simp [peerStep, handle_suspicion_vote, hc] at h
  | pingSuccess q => simp [peerStep] at h
  | pingFailure q =>
      by_cases hc : s.suspicions q + 1 = 2 <;>
        simp [peerStep, start_suspicion, hc] at h
  | originate t =>
      by_cases hc : s.message_count < 10 <;> simp [peerStep, hc] at h

/-- Peer with two neighbors and no strikes, used to show that two foreign
suspicion votes alone trigger a dead report. -/
def cxSuspPeer : PeerState :=
  { mkPeer "p" 1 with peers := {("a", 2), ("b", 3)}, registered_seeds := {("s", 9)} }

/-- Counterexample to C1 as stated: after two `suspicion_vote` frames from
its two neighbors, the peer `("p",1)` reports suspect `("d",4)` dead even
though it observed zero ping failures against it and is itself not among
the accusers. -/
theorem dead_report_without_self_strikes :
    deadReportCount ("d", 4)
      (runPeer (fun _ => 0) cxSuspPeer
        [.suspicionVote ("d", 4) ("a", 2), .suspicionVote ("d", 4) ("b", 3)]).2 = 1
    ∧ (runPeer (fun _ => 0) cxSuspPeer
        [.suspicionVote ("d", 4) ("a", 2),
         .suspicionVote ("d", 4) ("b", 3)]).1.suspicions ("d", 4) = 0
    ∧ ("p", 1) ∉ (runPeer (fun _ => 0) cxSuspPeer
        [.suspicionVote ("d", 4) ("a", 2),
         .suspicionVote ("d", 4) ("b", 3)]).1.suspicion_votes ("d", 4) := by
  decide

/-- Peer with no neighbors (neighbor quorum 1) and one registered seed. -/
def wVotePeer : PeerState := { mkPeer "p" 1 with registered_seeds := {("s", 9)} }

theorem dead_report_only_at_vote_quorum_witness :
    ∃ v, PeerEvent.suspicionVote ("d", 4) ("a", 2) = PeerEvent.suspicionVote ("d", 4) v
      ∧ wVotePeer.quorum_neighbors ≤ (insert v (wVotePeer.suspicion_votes ("d", 4))).card
      ∧ ({("s", 9)} : Finset Endpoint) = wVotePeer.registered_seeds :=
  dead_report_only_at_vote_quorum (fun _ => 0) wVotePeer
    (PeerEvent.suspicionVote ("d", 4) ("a", 2)) ("d", 4) {("s", 9)} (by decide)

/-! ## No deduplication of dead reports -/

/-- The neighbor quorum only depends on the neighbor set, which a suspicion
vote does not change. -/
lemma quorum_neighbors_update_votes (s : PeerState)
    (f : Endpoint → Finset Endpoint) :
    ({ s with suspicion_votes := f } : PeerState).quorum_neighbors =
      s.quorum_neighbors := rfl

/-- C4 (amended): every received `suspicion_vote` whose (idempotent)
insertion leaves the suspect's accuser tally at or above the neighbor quorum
triggers a `dead_node` fan-out; the observer keeps no `reported` flag, so a
duplicate vote arriving after quorum triggers a second fan-out. -/
theorem post_quorum_vote_reemits_report (hash : String → Int) (s : PeerState)
    (n v : Endpoint)
    (h : s.quorum_neighbors ≤ (insert v (s.suspicion_votes n)).card) :
    deadReportCount n
      (runPeer hash s [.suspicionVote n v, .suspicionVote n v]).2 = 2 := by
  simp [runPeer, peerStep, handle_suspicion_vote, report_dead_node,
    quorum_neighbors_update_votes, Function.update_same, Finset.insert_idem, h,
    deadReportCount, isDeadReportFor]

/-- Peer with no neighbors (neighbor quorum 1) and one registered seed. -/
def cxDupPeer : PeerState := { mkPeer "p" 1 with registered_seeds := {("s", 9)} }

/-- Counterexample to C4 as stated: the same vote delivered twice makes the
observer emit two `dead_node` fan-outs for the same suspect. -/
theorem duplicate_vote_double_report :
    deadReportCount ("d", 4)
      (runPeer (fun _ => 0) cxDupPeer
        [.suspicionVote ("d", 4) ("a", 2), .suspicionVote ("d", 4) ("a", 2)]).2 = 2 := by
  decide

/-- Peer with no neighbors and one registered seed, distinct from the
counterexample state. -/
def wReemitPeer : PeerState := { mkPeer "w" 5 with registered_seeds := {("t", 8)} }

theorem post_quorum_vote_reemits_report_witness :
    deadReportCount ("d", 4)
      (runPeer (fun _ => 0) wReemitPeer
        [.suspicionVote ("d", 4) ("a", 2), .suspicionVote ("d", 4) ("a", 2)]).2 = 2 :=
  post_quorum_vote_reemits_report (fun _ => 0) wReemitPeer ("d", 4) ("a", 2) (by decide)

/-! ## Gossip broadcast counting over whole executions -/

/-- Seen-message fingerprints only grow along an execution. -/
lemma peerStep_message_list_subset (hash : String → Int) (s : PeerState)
    (e : PeerEvent) :
    s.message_list ⊆ (peerStep hash s e).1.message_list := by
  cases e with
  | peerInfo q => exact Finset.Subset.refl _
  | gossip msg addr =>
      by_cases hm : hash msg ∈ s.message_list
      · simp [peerStep, handle_gossip, hm]
      · simp [peerStep, handle_gossip, hm, Finset.subset_insert]
  | ping addr => exact Finset.Subset.refl _
  | suspicionVote suspect voter =>
      by_cases hc : s.quorum_neighbors ≤ (insert voter (s.suspicion_votes suspect)).card <;>
        simp [peerStep, handle_suspicion_vote, hc]
  | pingSuccess q => exact Finset.Subset.refl _
  | pingFailure q =>
      by_cases hc : s.suspicions q + 1 = 2 <;>
        simp [peerStep, start_suspicion, hc]
  | originate t =>
      by_cases hc : s.message_count < 10 <;> simp [peerStep, hc]

/-- Receive-path broadcasts of `m` emitted by a single step: one when the
step is a gossip receipt of `m` with an unseen fingerprint, zero otherwise. -/
lemma rebroadcastCount_step_gossip (hash : String → Int) (s : PeerState)
    (msg : String) (addr : Endpoint) (m : String) :
    rebroadcastCount m (handle_gossip hash s msg addr).2 =
      if msg = m ∧ hash msg ∉ s.message_list then 1 else 0 := by
  by_cases hm : hash msg ∈ s.message_list
  · simp [handle_gossip, hm, rebroadcastCount]
  · by_cases hmsg : msg = m
    · subst hmsg
      simp [handle_gossip, hm, rebroadcastCount, isRebroadcastOf]
    · simp [handle_gossip, hm, hmsg, rebroadcastCount, isRebroadcastOf]

/-- No step other than a gossip receipt emits a receive-path broadcast. -/
lemma rebroadcastCount_step_nongossip (hash : String → Int) (s : PeerState)
    (e : PeerEvent) (m : String)
    (he : ∀ msg addr, e ≠ PeerEvent.gossip msg addr) :
    rebroadcastCount m (peerStep hash s e).2 = 0 := by
  cases e with
  | peerInfo q => simp [peerStep, rebroadcastCount]
  | gossip msg addr => exact absurd rfl (he msg addr)
  | ping addr => simp [peerStep, rebroadcastCount, isRebroadcastOf]
  | suspicionVote suspect voter =>
      by_cases hc : s.quorum_neighbors ≤ (insert voter (s.suspicion_votes suspect)).card <;>
        simp [peerStep, handle_suspicion_vote, report_dead_node, hc,
          rebroadcastCount, isRebroadcastOf]
  | pingSuccess q => simp [peerStep, rebroadcastCount]
  | pingFailure q =>
      by_cases hc : s.suspicions q + 1 = 2 <;>
        simp [peerStep, start_suspicion, hc, rebroadcastCount, isRebroadcastOf]
  | originate t =>
      by_cases hc : s.message_count < 10 <;>
        simp [peerStep, hc, rebroadcastCount, isRebroadcastOf]

lemma rebroadcastCount_append (m : String) (l1 l2 : List PeerOutput) :
    rebroadcastCount m (l1 ++ l2) = rebroadcastCount m l1 + rebroadcastCount m l2 := by
  simp [rebroadcastCount, List.filter_append]

/-- Core bound: along any execution a peer re-broadcasts `m` at most once,
and never once the fingerprint of `m` is already recorded. -/
lemma rebroadcast_run_bound (hash : String → Int) (m : String) :
    ∀ (es : List PeerEvent) (s : PeerState),
      (hash m ∈ s.message_list → rebroadcastCount m (runPeer hash s es).2 = 0)
      ∧ rebroadcastCount m (runPeer hash s es).2 ≤ 1 := by
  intro es
  induction es with
  | nil => intro s; exact ⟨fun _ => by simp [runPeer, rebroadcastCount],
      by simp [runPeer, rebroadcastCount]⟩
  | cons e es ih =>
      intro s
      have hsplit : rebroadcastCount m (runPeer hash s (e :: es)).2 =
          rebroadcastCount m (peerStep hash s e).2 +
          rebroadcastCount m (runPeer hash (peerStep hash s e).1 es).2 := by
        simp [runPeer, rebroadcastCount_append]
      by_cases hg : ∀ msg addr, e ≠ PeerEvent.gossip msg addr
      · -- non-gossip step: contributes nothing and preserves the fingerprint set
        have hz := rebroadcastCount_step_nongossip hash s e m hg
        constructor
        · intro hmem
          rw [hsplit, hz, (ih (peerStep hash s e).1).1
            (peerStep_message_list_subset hash s e hmem)]
        · rw [hsplit, hz]
          simpa using (ih (peerStep hash s e).1).2
      · push_neg at hg
        obtain ⟨msg, addr, rfl⟩ := hg
        have hstep : rebroadcastCount m (peerStep hash s (.gossip msg addr)).2 =
            if msg = m ∧ hash msg ∉ s.message_list then 1 else 0 :=
          rebroadcastCount_step_gossip hash s msg addr m
        by_cases hm : hash msg ∈ s.message_list
        · have hsame : (peerStep hash s (.gossip msg addr)).1 = s := by
            simp [peerStep, handle_gossip, hm]
          constructor
          · intro hmem
            rw [hsplit, hstep, if_neg (fun hc => hc.2 hm), hsame, (ih s).1 hmem]
          · rw [hsplit, hstep, if_neg (fun hc => hc.2 hm), hsame]
            simpa using (ih s).2
        · have hml : (peerStep hash s (.gossip msg addr)).1.message_list =
              insert (hash msg) s.message_list := by
            simp [peerStep, handle_gossip, hm]
          by_cases hmsg : msg = m
          · subst hmsg
            constructor
            · intro hmem; exact absurd hmem hm
            · rw [hsplit, hstep, if_pos ⟨rfl, hm⟩,
                (ih (peerStep hash s (.gossip msg addr)).1).1
                  (by rw [hml]; exact Finset.mem_insert_self _ _)]
          · constructor
            · intro hmem
              rw [hsplit, hstep, if_neg (fun hc => hmsg hc.1),
                (ih (peerStep hash s (.gossip msg addr)).1).1
                  (by rw [hml]; exact Finset.mem_insert_of_mem hmem)]
            · rw [hsplit, hstep, if_neg (fun hc => hmsg hc.1)]
              simpa using (ih (peerStep hash s (.gossip msg addr)).1).2

/-- C3 (amended): along any execution a peer re-broadcasts each received
gossip message at most once (receive-path de-duplication); originating a
message does not record its fingerprint, so an originator may fan the same
message out a second time when it first arrives back (see the
counterexample). -/
theorem rebroadcast_at_most_once (hash : String → Int) (s : PeerState)
    (es : List PeerEvent) (m : String) :
    rebroadcastCount m (runPeer hash s es).2 ≤ 1 :=
  (rebroadcast_run_bound hash m es s).2

/-- Peer `("a",1)` with two neighbors, about to originate its first message. -/
def cxGossipPeer : PeerState := { mkPeer "a" 1 with peers := {("b", 2), ("c", 3)} }

/-- Counterexample to C3 as stated: the originator fans out `"t:a:0"` once
from the originator loop and, because origination does not record the
fingerprint, a second time when the message arrives back from a neighbor —
two broadcasts of the same message by the same peer, each reaching a
nonempty neighbor set. -/
theorem originator_double_broadcast :
    broadcastCount "t:a:0"
      (runPeer (fun mg => (mg.length : Int)) cxGossipPeer
        [.originate "t", .gossip "t:a:0" ("b", 2)]).2 = 2
    ∧ (runPeer (fun mg => (mg.length : Int)) cxGossipPeer
        [.originate "t", .gossip "t:a:0" ("b", 2)]).2.filter (isBroadcastOf "t:a:0") =
      [.broadcastMsg "t:a:0" {("b", 2), ("c", 3)} true,
       .broadcastMsg "t:a:0" {("c", 3)} false] := by
  decide

/-! ## Neighbor-set mutation -/

/-- C8 (amended): the neighbor set is mutated only by the outbound
`peer_info` handshakes of `connect_to_peers` and by inbound `peer_info`
frames; the outbound path filters the peer's own endpoint, but the inbound
handler inserts the payload endpoint unconditionally — so an inbound
`peer_info` carrying the peer's own endpoint does insert self (see the
counterexample). -/
theorem neighbor_set_mutation_characterization :
    (∀ (hash : String → Int) (s : PeerState) (e : PeerEvent),
        (∀ q, e ≠ PeerEvent.peerInfo q) → (peerStep hash s e).1.peers = s.peers)
    ∧ (∀ (hash : String → Int) (s : PeerState) (q : Endpoint),
        (peerStep hash s (PeerEvent.peerInfo q)).1.peers = insert q s.peers)
    ∧ (∀ (ok : Endpoint → Bool) (s : PeerState) (lst : List Endpoint),
        (s.ip, s.port) ∉ s.peers →
        (s.ip, s.port) ∉ (connect_to_peers ok s lst).1.peers) := by
  refine ⟨?_, ?_, ?_⟩
  · intro hash s e he
    cases e with
    | peerInfo q => exact absurd rfl (he q)
    | gossip msg addr =>
        by_cases hm : hash msg ∈ s.message_list <;>
          simp [peerStep, handle_gossip, hm]
    | ping addr => rfl
    | suspicionVote suspect voter =>
        by_cases hc : s.quorum_neighbors ≤ (insert voter (s.suspicion_votes suspect)).card <;>
          simp [peerStep, handle_suspicion_vote, hc]
    | pingSuccess q => rfl
    | pingFailure q =>
        by_cases hc : s.suspicions q + 1 = 2 <;>
          simp [peerStep, start_suspicion, hc]
    | originate t =>
        by_cases hc : s.message_count < 10 <;> simp [peerStep, hc]
  · intro hash s q
    rfl
  · intro ok s lst
    induction lst generalizing s with
    | nil => intro hnot; simpa [connect_to_peers] using hnot
    | cons q rest ih =>
        intro hnot
        by_cases hq : q = (s.ip, s.port)
        · simpa [connect_to_peers, hq] using ih s hnot
        · by_cases hok : ok q
          · have hnot' : ((s.ip, s.port) : Endpoint) ∉ insert q s.peers := by
              intro hmem
              rcases Finset.mem_insert.mp hmem with h | h
              · exact hq h.symm
              · exact hnot h
            have hrec := ih { s with peers := insert q s.peers } hnot'
            simpa [connect_to_peers, hq, hok] using hrec
          · simpa [connect_to_peers, hq, hok] using ih s hnot

/-- Counterexample to C8 as stated: an inbound `peer_info` whose payload is
the receiving peer's own endpoint inserts the peer into its own neighbor
set — the self-exclusion does not hold for inbound frames. -/
theorem inbound_peer_info_can_insert_self :
    ("p", 1) ∈ (peerStep (fun _ => 0) (mkPeer "p" 1)
        (PeerEvent.peerInfo ("p", 1))).1.peers
    ∧ (mkPeer "p" 1).ip = "p" ∧ (mkPeer "p" 1).port = 1
    ∧ (mkPeer "p" 1).peers = ∅ := by
  decide

theorem neighbor_set_mutation_characterization_witness :
    ((peerStep (fun _ => 0) (mkPeer "w" 2) (PeerEvent.ping ("a", 3))).1.peers =
      (mkPeer "w" 2).peers)
    ∧ (("w", 2) ∉ (connect_to_peers (fun _ => true) (mkPeer "w" 2)
        [("w", 2), ("x", 4)]).1.peers) :=
  ⟨neighbor_set_mutation_characterization.1 (fun _ => 0) (mkPeer "w" 2)
      (PeerEvent.ping ("a", 3)) (fun q h => PeerEvent.noConfusion h),
   neighbor_set_mutation_characterization.2.2 (fun _ => true) (mkPeer "w" 2)
      [("w", 2), ("x", 4)] (by decide)⟩

/-! ## Power-law neighbor selection -/

lemma list_sum_map_div (l : List ℚ) (t : ℚ) :
    (l.map (fun p => p / t)).sum = l.sum / t := by
  induction l with
  | nil => simp
  | cons a l ih => simp [ih, add_div]

/-- The un-normalized rank weights are positive, so their sum is positive
for a nonempty candidate list. -/
lemma powerLawWeights_sum_pos (n : Nat) (hn : 0 < n) :
    0 < ((((List.range n).map (fun i => i + 1)).map
        (fun d : Nat => (d : ℚ) ^ (-2 : ℤ)))).sum := by
  apply List.sum_pos
  · intro x hx
    simp only [List.map_map, List.mem_map, Function.comp, List.mem_range] at hx
    obtain ⟨i, _, rfl⟩ := hx
    have hbase : (0 : ℚ) < ((i + 1 : Nat) : ℚ) := by positivity
    exact zpow_pos hbase _
  · simp [hn.ne.symm, List.range_eq_nil]

/-- C7's weight table, element-wise: entry `i` is `(i+1)^(-2)` divided by
the total weight. -/
lemma powerLawProbs_getD (n i : Nat) (hi : i < n) :
    (powerLawProbs n).getD i 0 =
      ((i : ℚ) + 1) ^ (-2 : ℤ) /
        (((List.range n).map (fun (j : Nat) => ((j : ℚ) + 1) ^ (-2 : ℤ))).sum) := by
  unfold powerLawProbs
  have hlen : i < ((((List.range n).map (fun i => i + 1)).map
      (fun d : Nat => (d : ℚ) ^ (-2 : ℤ))).map
        (fun p => p / ((((List.range n).map (fun i => i + 1)).map
          (fun d : Nat => (d : ℚ) ^ (-2 : ℤ))).sum))).length := by
    simpa using hi
  rw [List.getD_eq_getElem _ _ hlen]
  simp only [List.getElem_map, List.getElem_range, List.map_map, Function.comp_apply]
  have hfun : List.map ((fun (d : Nat) => (d : ℚ) ^ (-2 : ℤ)) ∘ fun i => i + 1)
      (List.range n) =
      List.map (fun (j : Nat) => ((j : ℚ) + 1) ^ (-2 : ℤ)) (List.range n) := by
    apply List.map_congr_left
    intro a _
    simp [Function.comp, Nat.cast_add, Nat.cast_one]
  rw [hfun]
  push_cast
  rfl

/-- C7's normalization: the weight table sums to exactly 1. -/
lemma powerLawProbs_sum (n : Nat) (hn : 0 < n) : (powerLawProbs n).sum = 1 := by
  unfold powerLawProbs
  rw [list_sum_map_div]
  exact div_self (powerLawWeights_sum_pos n hn).ne.symm

/-- C7: for a nonempty candidate list of length `n`, the peer samples
`k = min(3, n)` indices (via the `random.choices` oracle) from the
normalized weight table whose `i`-th entry is `(i+1)^(-2)` over the total,
a genuine probability distribution (sums to 1); the sampled indices select
candidates positionally, and the peer's own endpoint is filtered out of
`connect_to_peers` before any `peer_info` handshake is sent. -/
theorem power_law_selection_spec (choices : Nat → List ℚ → Nat → List Nat)
    (peers : List Endpoint) (hne : peers ≠ []) :
    (select_peers_power_law choices peers =
      (choices peers.length (powerLawProbs peers.length) (min 3 peers.length)).map
        (fun i => peers.getD i ("", 0)))
    ∧ (∀ i, i < peers.length → (powerLawProbs peers.length).getD i 0 =
        ((i : ℚ) + 1) ^ (-2 : ℤ) /
          (((List.range peers.length).map
            (fun (j : Nat) => ((j : ℚ) + 1) ^ (-2 : ℤ))).sum))
    ∧ (powerLawProbs peers.length).sum = 1
    ∧ (∀ (ok : Endpoint → Bool) (s : PeerState) (lst : List Endpoint),
        PeerOutput.peerInfoSend (s.ip, s.port) ∉ (connect_to_peers ok s lst).2) := by
  refine ⟨?_, ?_, ?_, ?_⟩
  · simp [select_peers_power_law, hne]
  · intro i hi
    exact powerLawProbs_getD peers.length i hi
  · exact powerLawProbs_sum peers.length (List.length_pos.mpr hne)
  · intro ok s lst
    induction lst generalizing s with
    | nil => simp [connect_to_peers]
    | cons q rest ih =>
        by_cases hq : q = (s.ip, s.port)
        · simpa [connect_to_peers, hq] using ih s
        · by_cases hok : ok q
          · have hrec := ih { s with peers := insert q s.peers }
            intro hmem
            simp only [connect_to_peers, if_neg hq, if_pos hok,
              List.mem_cons] at hmem
            rcases hmem with h | h
            · exact hq (by injection h with h1; exact h1.symm)
            · exact hrec h
          · simpa [connect_to_peers, hq, hok] using ih s

/-- The constant sampling oracle used to exercise the selection theorem. -/
def wChoices : Nat → List ℚ → Nat → List Nat :=
  fun _ _ k => List.replicate k 0

theorem power_law_selection_spec_witness :
    (select_peers_power_law wChoices [("a", 1), ("b", 2)] =
      (wChoices 2 (powerLawProbs 2) 2).map
        (fun i => ([("a", 1), ("b", 2)] : List Endpoint).getD i ("", 0)))
    ∧ ((powerLawProbs 2).getD 0 0 =
        ((0 : ℚ) + 1) ^ (-2 : ℤ) /
          (((List.range 2).map (fun (j : Nat) => ((j : ℚ) + 1) ^ (-2 : ℤ))).sum))
    ∧ (powerLawProbs 2).sum = 1
    ∧ (PeerOutput.peerInfoSend ("w", 2) ∉
        (connect_to_peers (fun _ => true) (mkPeer "w" 2) [("w", 2), ("x", 4)]).2) :=
  ⟨(power_law_selection_spec wChoices [("a", 1), ("b", 2)] (by decide)).1,
   (power_law_selection_spec wChoices [("a", 1), ("b", 2)] (by decide)).2.1 0 (by decide),
   (power_law_selection_spec wChoices [("a", 1), ("b", 2)] (by decide)).2.2.1,
   (power_law_selection_spec wChoices [("a", 1), ("b", 2)] (by decide)).2.2.2
     (fun _ => true) (mkPeer "w" 2) [("w", 2), ("x", 4)]⟩
